import Mathlib

/-!
Verification of the deker-local-adapters storage engine.

This file shallowly embeds the storage-level operations of the repository:

* `HDF5StorageAdapter` (src/deker_local_adapters/storage_adapters/hdf5/
  hdf5_storage_adapter.py): `create`, `read_data`, `update_data`,
  `clear_data`, acting on a model of one HDF5 container file
  (metadata slot, `empty_cells` scalar, optional dense `data` block).
* `LocalAdapterMixin` (src/deker_local_adapters/mixin.py): `_delete` and the
  ancestor-directory sweep, `get_by_primary_attributes`,
  `check_symlink_existence`.
* `LocalArrayAdapter.create` (src/deker_local_adapters/array_adapter.py).
* `LocalCollectionAdapter.create` (src/deker_local_adapters/
  collection_adapter.py).

N-dimensional arrays are embedded flatly: a shape is a list of dimension
sizes, a cell is addressed by a row-major flat index, and hyperrectangular
numpy slices (`bounds`) are lists of per-dimension `(start, stop)` pairs.
Scalar values are an abstract type `α` with decidable equality together
with an `isNaN : α → Bool` predicate, mirroring the NaN-aware fill-value
counting of `update_data`.
-/

namespace DekerLocal

/-- A shape: the list of dimension sizes of an n-dimensional array. -/
abbrev Shape := List Nat

/-- Hyperrectangular bounds: one `(start, stop)` half-open interval per
dimension, the embedding of the numpy `Slice` passed as `bounds`. -/
abbrev Bounds := List (Nat × Nat)

/-- External helper `deker.tools.calculate_total_cells_in_array`, used by the
storage adapter; per the spec it returns "the total cell count implied by
`shape`", i.e. the product of the dimension sizes. -/
def calculate_total_cells_in_array (shape : Shape) : Nat :=
  shape.prod

/-- External helper `deker_tools.slices.create_shape_from_slice`: the shape of
the sub-block a slice selects from an array of the given shape.  For
half-open per-dimension bounds this is the list of interval lengths. -/
def create_shape_from_slice (_shape : Shape) (bounds : Bounds) : Shape :=
  bounds.map fun p => p.2 - p.1

/-- Row-major rank of a multi-index in an array of the given shape. -/
def rankIdx : Shape → List Nat → Nat
  | _ :: ds, i :: is => i * ds.prod + rankIdx ds is
  | _, _ => 0

/-- Row-major unranking: the multi-index of flat cell `n` in the given shape. -/
def unrankIdx : Shape → Nat → List Nat
  | [], _ => []
  | _ :: ds, n => n / ds.prod :: unrankIdx ds (n % ds.prod)

/-- A multi-index is valid for a shape when it has the same length and each
coordinate is below the corresponding dimension size. -/
def ValidIdx (shape : Shape) (idx : List Nat) : Prop :=
  List.Forall₂ (fun i d => i < d) idx shape

instance (shape : Shape) (idx : List Nat) : Decidable (ValidIdx shape idx) :=
  inferInstanceAs (Decidable (List.Forall₂ _ _ _))

/-- Bounds are well-formed for a shape when per dimension
`start ≤ stop ≤ dim`. -/
def WfBounds (shape : Shape) (bounds : Bounds) : Prop :=
  List.Forall₂ (fun p d => p.1 ≤ p.2 ∧ p.2 ≤ d) bounds shape

instance (shape : Shape) (bounds : Bounds) : Decidable (WfBounds shape bounds) :=
  inferInstanceAs (Decidable (List.Forall₂ _ _ _))

/-- Whether a multi-index lies inside the bounds (the cells a slice selects). -/
def inBoundsIdx (bounds : Bounds) (idx : List Nat) : Bool :=
  idx.length == bounds.length &&
    (List.zip bounds idx).all fun p => decide (p.1.1 ≤ p.2 ∧ p.2 < p.1.2)

/-- Absolute multi-index of a relative multi-index inside the bounds:
per dimension, `start + relative coordinate`. -/
def absIdx (bounds : Bounds) (rel : List Nat) : List Nat :=
  (List.zip bounds rel).map fun p => p.1.1 + p.2

/-- Relative multi-index (inside the bounds) of an absolute multi-index:
per dimension, `coordinate - start`. -/
def relIdx (bounds : Bounds) (idx : List Nat) : List Nat :=
  (List.zip bounds idx).map fun p => p.2 - p.1.1

/-- Flat position (in the full array) of the `j`-th cell (row-major within the
selected sub-block) of the slice selected by `bounds`. -/
def selPos (shape : Shape) (bounds : Bounds) (j : Nat) : Nat :=
  rankIdx shape (absIdx bounds (unrankIdx (create_shape_from_slice shape bounds) j))

/-- The flattened sub-block `ds[bounds]` a numpy slice reads from a flattened
dense block `ds` of the given shape. -/
def sliceRead (shape : Shape) (bounds : Bounds) (ds : List α) (dflt : α) : List α :=
  (List.range (create_shape_from_slice shape bounds).prod).map fun j =>
    ds.getD (selPos shape bounds j) dflt

/-- The flattened dense block after `ds[bounds] = data`: cells inside the
bounds take the corresponding cell of `data`, the rest keep the old value
(`old`, defaulted cell lookup of the previous block). -/
def writeSlice (shape : Shape) (bounds : Bounds) (old : Nat → α) (data : List α)
    (dflt : α) : List α :=
  (List.range shape.prod).map fun i =>
    let idx := unrankIdx shape i
    if inBoundsIdx bounds idx then
      data.getD (rankIdx (create_shape_from_slice shape bounds) (relIdx bounds idx)) dflt
    else old i

/-- NaN-aware count of the cells of `data` holding the fill value, the
`fill_value_in_data` computation of `HDF5StorageAdapter.update_data`:
`np.count_nonzero(np.isnan(data))` when the fill value is NaN, otherwise
`len(data[data == fill_value])`. -/
def countFill [DecidableEq α] (isNaN : α → Bool) (fill : α) (data : List α) : Nat :=
  if isNaN fill then data.countP (fun v => isNaN v)
  else data.countP (fun v => decide (v = fill))

/-- An HDF5 dataset holding a dense data block: its shape and its (row-major
flattened) cells. -/
structure DataBlock (α : Type) where
  shape : Shape
  cells : List α
deriving DecidableEq

/-- One HDF5 container file: the `meta` slot, the `empty_cells` scalar and the
optional dense `data` block.  `empty_cells` is an `Int` because the file
stores a numpy integer scalar and `update_data` manipulates it with signed
arithmetic before clamping. -/
structure H5File (μ α : Type) where
  meta : Option μ
  empty_cells : Int
  data : Option (DataBlock α)
deriving DecidableEq

namespace HDF5StorageAdapter

/-- `HDF5StorageAdapter.create`: a fresh container holds the metadata blob,
an `empty_cells` counter equal to the total cell count of the shape, and no
dense `data` block. -/
def create (array_shape : Shape) (metadata : μ) : H5File μ α :=
  { meta := some metadata
    empty_cells := (calculate_total_cells_in_array array_shape : Int)
    data := none }

/-- `HDF5StorageAdapter.read_data`: if no `data` block exists, synthesize a
block of the array shape filled with `fill_value` and slice it; otherwise
slice the stored block (h5py indexes the stored dataset by its own shape). -/
def read_data (f : H5File μ α) (array_shape : Shape) (bounds : Bounds)
    (fill_value : α) : List α :=
  match f.data with
  | some ds => sliceRead ds.shape bounds ds.cells fill_value
  | none =>
      sliceRead array_shape bounds
        (List.replicate (calculate_total_cells_in_array array_shape) fill_value) fill_value

/-- `HDF5StorageAdapter.update_data`: subtract the covered region's cell count
from the counter, clamp at zero, add back the NaN-aware count of fill-valued
cells in the new data; if the result reaches the total cell count the dense
block is deleted and the counter set to the total, otherwise the region is
overwritten in place (allocating a fill-initialized block at full shape if
none exists) and the counter set to the result.  Chunking/compression
options only configure the on-disk layout and are not modelled. -/
def update_data [DecidableEq α] (f : H5File μ α) (bounds : Bounds) (data : List α)
    (shape : Shape) (fill_value : α) (isNaN : α → Bool) : H5File μ α :=
  let total_cells : Int := (calculate_total_cells_in_array shape : Int)
  let subset_shape := create_shape_from_slice shape bounds
  let subset_cells : Int := (calculate_total_cells_in_array subset_shape : Int)
  let empty_cells : Int := f.empty_cells - subset_cells
  let updated_empty_cells : Int := if empty_cells > 0 then empty_cells else 0
  let fill_value_in_data : Nat := countFill isNaN fill_value data
  let updated_empty_cells : Int := updated_empty_cells + (fill_value_in_data : Int)
  if updated_empty_cells ≥ total_cells then
    { f with data := none, empty_cells := total_cells }
  else
    match f.data with
    | some ds =>
        { f with
          data := some ⟨ds.shape,
            writeSlice ds.shape bounds (fun i => ds.cells.getD i fill_value) data fill_value⟩
          empty_cells := updated_empty_cells }
    | none =>
        { f with
          data := some ⟨shape,
            writeSlice shape bounds (fun _ => fill_value) data fill_value⟩
          empty_cells := updated_empty_cells }

/-- `HDF5StorageAdapter.clear_data`: a no-op when no dense block exists;
otherwise add the covered region's cell count to the counter and either
delete the block (when the region's shape equals the block's shape or the
sum reaches the total cell count), setting the counter to the total, or
overwrite the region with the fill value and store the sum. -/
def clear_data (f : H5File μ α) (array_shape : Shape) (bounds : Bounds)
    (fill_value : α) : H5File μ α :=
  match f.data with
  | none => f
  | some ds =>
      let subset_shape := create_shape_from_slice array_shape bounds
      let empty_cells := f.empty_cells
      let total_cells : Int := (calculate_total_cells_in_array array_shape : Int)
      let subset_cells : Int := (calculate_total_cells_in_array subset_shape : Int)
      let updated_empty_cells := empty_cells + subset_cells
      if ds.shape = subset_shape ∨ updated_empty_cells ≥ total_cells then
        { f with data := none, empty_cells := total_cells }
      else
        { f with
          data := some ⟨ds.shape,
            writeSlice ds.shape bounds (fun i => ds.cells.getD i fill_value)
              (List.replicate subset_shape.prod fill_value) fill_value⟩
          empty_cells := updated_empty_cells }

end HDF5StorageAdapter

/-- Whether one cell value counts as the fill value under the NaN-aware
comparison used by `update_data`: when the fill value is NaN, any NaN cell
counts; otherwise plain equality. -/
def matchesFill [DecidableEq α] (isNaN : α → Bool) (fill v : α) : Bool :=
  if isNaN fill then isNaN v else decide (v = fill)

/-- Equality of two flattened blocks up to the representation of fill cells:
cellwise, either the values are equal, or both count as the fill value under
the NaN-aware comparison (so a NaN cell and the NaN fill value are
identified, and fill cells elided into the dense-block-absent representation
compare equal to the fill value). -/
def FillAwareEq [DecidableEq α] (isNaN : α → Bool) (fill : α) (xs ys : List α) : Prop :=
  xs.length = ys.length ∧ ∀ j, j < xs.length →
    xs.getD j fill = ys.getD j fill ∨
      (matchesFill isNaN fill (xs.getD j fill) = true ∧
        matchesFill isNaN fill (ys.getD j fill) = true)

/-- The set of flat cell indices of an array of shape `shape` selected by
`bounds` (the distinct cells a write with these bounds covers). -/
def cellFinset (shape : Shape) (bounds : Bounds) : Finset Nat :=
  (Finset.range shape.prod).filter fun i => inBoundsIdx bounds (unrankIdx shape i) = true

/-- The set of distinct flat cell indices covered by a list of bounds. -/
def unionCells (shape : Shape) : List Bounds → Finset Nat
  | [] => ∅
  | b :: bs => cellFinset shape b ∪ unionCells shape bs

/-! ### Filesystem-level models -/

/-- The deker exception classes raised by the code relevant to the claims:
`DekerArrayError` (main file exists / parent virtual array missing),
`DekerValidationError` (non-empty symlink shard directory),
`DekerCollectionAlreadyExistsError`, `DekerCollectionNotExistsError`,
`DekerMemoryError` (memory-limit check) and this repository's own
`DekerBrokenSymlinkError`. -/
inductive DekerError
  | dekerArrayError
  | dekerValidationError
  | dekerCollectionAlreadyExistsError
  | dekerCollectionNotExistsError
  | dekerMemoryError
  | dekerBrokenSymlinkError
deriving DecidableEq

/-- The spec's §7 error-condition taxonomy. -/
inductive ErrorCategory
  | alreadyExists
  | notFound
  | brokenReference
  | validationError
  | memoryLimitExceeded
  | storageFailure
deriving DecidableEq

/-- Modelled from the spec: §7 assigns error conditions to what the code
raises; the assignment here follows the exception class names
(`DekerValidationError` is the validation-error class,
`DekerCollectionAlreadyExistsError` the already-exists class, `DekerMemory
Error` the memory-limit class, `DekerBrokenSymlinkError` the broken-reference
class).  `DekerArrayError` is classified by its duplicate-id use in
`check_array_file_existence` (`"File ... already exists"`); the same class is
also raised for a missing parent virtual array, which §7 would file under
`NotFound` — no claim depends on that case. -/
def errorTaxonomy : DekerError → ErrorCategory
  | .dekerArrayError => .alreadyExists
  | .dekerValidationError => .validationError
  | .dekerCollectionAlreadyExistsError => .alreadyExists
  | .dekerCollectionNotExistsError => .notFound
  | .dekerMemoryError => .memoryLimitExceeded
  | .dekerBrokenSymlinkError => .brokenReference

/-- A filesystem path as a list of directory-name components (relative to
the collection directory). -/
abbrev FsPath := List String

/-- Filesystem state relevant to array creation: main container files keyed
by path, symlink records (location, target) and existing directories. -/
structure ArrayFS (μ α : Type) where
  containers : List (FsPath × H5File μ α)
  symlinks : List (FsPath × FsPath)
  dirs : List FsPath
deriving DecidableEq

/-- The data of an `Array` object consumed by `LocalArrayAdapter.create`:
id, optional parent virtual-array id, primary attribute values, shape,
metadata. -/
structure ArraySpec (μ : Type) where
  id : String
  vid : Option String
  primary_attributes : List String
  shape : Shape
  metadata : μ

/-- Modelled from the spec: the sharded layout of §6.  The deker-core path
helpers (`get_paths`, `get_main_path`, `get_symlink_path`) are external to
this repository; the model shards the main container under the array-data
root by id and the link record under the symlinks root by the primary
attribute values, so identical attribute values resolve to the identical
shard directory. -/
def mainDirOf (dataDir : String) (a : ArraySpec μ) : FsPath := [dataDir, a.id]

/-- Shard directory of the link record, keyed by primary attribute values
(see `mainDirOf`). -/
def symDirOf (symDir : String) (a : ArraySpec μ) : FsPath :=
  symDir :: a.primary_attributes

/-- Path of the main container file (`paths.main / (id + file_ext)`). -/
def mainFileOf (dataDir : String) (a : ArraySpec μ) : FsPath :=
  mainDirOf dataDir a ++ [a.id]

/-- Path of the symlink file (`paths.symlink / (id + file_ext)`). -/
def symFileOf (symDir : String) (a : ArraySpec μ) : FsPath :=
  symDirOf symDir a ++ [a.id]

/-- Container stored at a path, if any. -/
def lookupContainer (fs : ArrayFS μ α) (p : FsPath) : Option (H5File μ α) :=
  fs.containers.lookup p

/-- `Path.exists` for a main container file. -/
def fileExistsFS (fs : ArrayFS μ α) (p : FsPath) : Bool :=
  (lookupContainer fs p).isSome

/-- Negation of `deker_tools.path.is_empty` for a directory: some container,
symlink or sub-directory lies directly under it. -/
def dirNonEmpty (fs : ArrayFS μ α) (d : FsPath) : Bool :=
  fs.containers.any (fun e => e.1.dropLast == d) ||
    fs.symlinks.any (fun e => e.1.dropLast == d) ||
    fs.dirs.any fun q => !q.isEmpty && q.dropLast == d

/-- `HDF5StorageAdapter.create` at the filesystem level: `h5py.File(path,
"w", ...)` opens the file for writing, creating it or truncating whatever
container already lives at `path` — no existence check is made — and the
fresh metadata and counter datasets are written. -/
def storageCreateFile (fs : ArrayFS μ α) (path : FsPath) (array_shape : Shape)
    (metadata : μ) : ArrayFS μ α × Option DekerError :=
  ({ fs with containers :=
      (path, HDF5StorageAdapter.create array_shape metadata) ::
        fs.containers.filter fun e => !(e.1 == path) }, none)

/-- `LocalArrayAdapter.create`: create the shard directories
(`paths.create()` in `get_filenames_for_create_methods`), fail with
`DekerArrayError` if the main file exists (`check_array_file_existence`),
fail with `DekerArrayError` if a declared parent virtual array's main
directory is missing, fail with `DekerValidationError` if primary
attributes are declared and the symlink shard directory is non-empty
(`check_symlink_existence`), otherwise write the container
(`storage_adapter.create`) and then the symlink (`os.symlink`). -/
def localArrayAdapterCreate [DecidableEq α] (dataDir symDir varrayDataDir : String)
    (fs : ArrayFS μ α) (a : ArraySpec μ) : ArrayFS μ α × Option DekerError :=
  let fs1 : ArrayFS μ α :=
    { fs with dirs := mainDirOf dataDir a :: symDirOf symDir a :: fs.dirs }
  let main := mainFileOf dataDir a
  let sym := symFileOf symDir a
  if fileExistsFS fs1 main then (fs1, some .dekerArrayError)
  else if (match a.vid with
      | some v => !fs1.dirs.contains [varrayDataDir, v]
      | none => false) then (fs1, some .dekerArrayError)
  else if !a.primary_attributes.isEmpty && dirNonEmpty fs1 (symDirOf symDir a) then
    (fs1, some .dekerValidationError)
  else
    let fs2 := (storageCreateFile fs1 main a.shape a.metadata).1
    ({ fs2 with symlinks := (sym, main) :: fs2.symlinks }, none)

/-- Collection Registry state: collection directories and collection
metadata documents (name, content). -/
structure CollectionsFS where
  dirs : List String
  files : List (String × String)
deriving DecidableEq

/-- Modelled from the spec: the external `deker.tools.check_memory`, which
per §4.6 "validates that the schema's total memory footprint (cell count ×
element size) does not exceed a configured limit, failing with a distinct
memory-limit condition otherwise". -/
def check_memory (shape : Shape) (itemsize : Nat) (memory_limit : Nat) :
    Option DekerError :=
  if shape.prod * itemsize > memory_limit then some .dekerMemoryError else none

/-- `LocalCollectionAdapter.create`: run the memory check first; then
`__create_path` fails with `DekerCollectionAlreadyExistsError` when the
collection directory exists, otherwise creates the directory and `__create`
writes the metadata document into it. -/
def localCollectionAdapterCreate (fs : CollectionsFS) (name : String) (shape : Shape)
    (itemsize : Nat) (memory_limit : Nat) (metadata : String) :
    CollectionsFS × Option DekerError :=
  match check_memory shape itemsize memory_limit with
  | some e => (fs, some e)
  | none =>
      if name ∈ fs.dirs then (fs, some .dekerCollectionAlreadyExistsError)
      else ({ dirs := name :: fs.dirs, files := (name, metadata) :: fs.files }, none)

/-- One `os.scandir` entry of a symlink shard directory, with the flags
`get_by_primary_attributes` inspects. -/
structure DirEntry where
  name : String
  is_file : Bool
  is_symlink : Bool
deriving DecidableEq

/-- Outcome of an attribute-based lookup: a record, the absent result
(`None`), or a raised error. -/
inductive LookupResult (β : Type)
  | found : β → LookupResult β
  | absent
  | errored : DekerError → LookupResult β
deriving DecidableEq

/-- The scan loop of `LocalAdapterMixin.get_by_primary_attributes`: the
first regular file ends the scan with a record; a symlink that is not a
file (a broken symlink) raises `DekerBrokenSymlinkError`; other entries are
skipped. -/
def scanSymlinkDir : List DirEntry → LookupResult String
  | [] => .absent
  | e :: rest =>
      if e.is_file then .found e.name
      else if e.is_symlink && !e.is_file then .errored .dekerBrokenSymlinkError
      else scanSymlinkDir rest

/-- `LocalAdapterMixin.get_by_primary_attributes` on the resolved shard
directory: a missing directory (`FileNotFoundError` from `os.scandir`) is
caught and yields the absent result; otherwise the entries are scanned. -/
def get_by_primary_attributes (dir : Option (List DirEntry)) : LookupResult String :=
  match dir with
  | none => .absent
  | some entries => scanSymlinkDir entries

/-- A directory-name for the sweep model, as characters (so that the
`str(folder).endswith(directory)` check of `_delete` is representable). -/
abbrev DirName := List Char

/-- A path for the sweep model: directory names from the root downward. -/
abbrev SweepPath := List DirName

/-- Filesystem state for `LocalAdapterMixin._delete`: directories, regular
files, and symlinks (location, target). -/
structure SweepFS where
  dirs : List SweepPath
  files : List SweepPath
  symlinks : List (SweepPath × SweepPath)
deriving DecidableEq

/-- `str(folder)`: the path string, components joined by `/`. -/
def joinPath : SweepPath → List Char
  | [] => []
  | [x] => x
  | x :: xs => x ++ '/' :: joinPath xs

/-- `str(folder).endswith(directory)`. -/
def pathEndsWith (p : SweepPath) (d : DirName) : Bool :=
  d.isSuffixOf (joinPath p)

/-- `file.parents`: the ancestors of a path, nearest first, down to the
root (the empty path). -/
def parentsOf (p : SweepPath) : List SweepPath :=
  (List.range p.length).map fun k => p.take (p.length - 1 - k)

/-- `os.listdir(folder)`: the entries directly under a directory. -/
def dirEntriesFS (fs : SweepFS) (d : SweepPath) : List SweepPath :=
  (fs.dirs ++ fs.files ++ fs.symlinks.map Prod.fst).filter
    fun q => !q.isEmpty && q.dropLast == d

/-- Whether a directory exists; the filesystem root (empty path) always
does. -/
def dirExistsFS (fs : SweepFS) (d : SweepPath) : Bool :=
  d.isEmpty || fs.dirs.contains d

/-- `os.rmdir`. -/
def rmdirFS (fs : SweepFS) (d : SweepPath) : SweepFS :=
  { fs with dirs := fs.dirs.filter fun q => !(q == d) }

/-- `os.remove` of a regular file. -/
def removeFileFS (fs : SweepFS) (p : SweepPath) : SweepFS :=
  { fs with files := fs.files.filter fun q => !(q == p) }

/-- `Path.unlink(missing_ok=True)` of a symlink. -/
def removeSymlinkFS (fs : SweepFS) (p : SweepPath) : SweepFS :=
  { fs with symlinks := fs.symlinks.filter fun e => !(e.1 == p) }

/-- The ancestor-sweep loop of `LocalAdapterMixin._delete`: for each
ancestor folder, nearest first, `os.listdir` it (a missing folder raises
`FileNotFoundError`, modelled by the `false` flag, which aborts the whole
call); stop (`break`) when the folder is non-empty or its path string ends
with one of the configured root directory names; otherwise remove it and
continue upward. -/
def sweepFolders (rootDirs : List DirName) : SweepFS → List SweepPath → SweepFS × Bool
  | fs, [] => (fs, true)
  | fs, folder :: rest =>
      if !dirExistsFS fs folder then (fs, false)
      else if !(dirEntriesFS fs folder).isEmpty || rootDirs.any (pathEndsWith folder) then
        (fs, true)
      else sweepFolders rootDirs (rmdirFS fs folder) rest

/-- `LocalAdapterMixin._delete`: read the symlink (`readlink` raising
`FileNotFoundError` — caught, ending the call with no change — when the
symlink does not exist), remove the target file if it exists, unlink the
symlink, then sweep the ancestors of the target and of the symlink (each
sweep guarded by `file.parent.exists()`; an exception inside the first
sweep aborts the second). -/
def mixinDelete (rootDirs : List DirName) (fs : SweepFS) (symlink : SweepPath) :
    SweepFS :=
  match fs.symlinks.lookup symlink with
  | none => fs
  | some data =>
      let fs1 := if fs.files.contains data then removeFileFS fs data else fs
      let fs2 := removeSymlinkFS fs1 symlink
      let r3 := if dirExistsFS fs2 data.dropLast then
          sweepFolders rootDirs fs2 (parentsOf data)
        else (fs2, true)
      if r3.2 then
        (if dirExistsFS r3.1 symlink.dropLast then
            sweepFolders rootDirs r3.1 (parentsOf symlink)
          else (r3.1, true)).1
      else r3.1

theorem rankIdx_lt {shape : Shape} {idx : List Nat} (h : ValidIdx shape idx) :
    rankIdx shape idx < shape.prod := by
  induction h with
  | nil => simp [rankIdx]
  | @cons i d is ds hid _ ih =>
      have h1 : i * ds.prod + rankIdx ds is < (i + 1) * ds.prod := by
        rw [Nat.succ_mul]
        exact Nat.add_lt_add_left ih _
      have h2 : (i + 1) * ds.prod ≤ d * ds.prod :=
        Nat.mul_le_mul_right _ hid
      simpa [rankIdx] using Nat.lt_of_lt_of_le h1 h2

theorem unrankIdx_rankIdx {shape : Shape} {idx : List Nat} (h : ValidIdx shape idx) :
    unrankIdx shape (rankIdx shape idx) = idx := by
  induction h with
  | nil => rfl
  | @cons i d is ds _ htail ih =>
      have hr : rankIdx ds is < ds.prod := rankIdx_lt htail
      have hP : 0 < ds.prod := Nat.lt_of_le_of_lt (Nat.zero_le _) hr
      have hdiv : (i * ds.prod + rankIdx ds is) / ds.prod = i := by
        rw [Nat.add_comm, Nat.mul_comm, Nat.add_mul_div_left _ _ hP,
          Nat.div_eq_of_lt hr]
        omega
      have hmod : (i * ds.prod + rankIdx ds is) % ds.prod = rankIdx ds is := by
        rw [Nat.add_comm, Nat.mul_comm, Nat.add_mul_mod_self_left,
          Nat.mod_eq_of_lt hr]
      simp [rankIdx, unrankIdx, hdiv, hmod, ih]

theorem validIdx_unrankIdx {shape : Shape} {n : Nat} (h : n < shape.prod) :
    ValidIdx shape (unrankIdx shape n) := by
  induction shape generalizing n with
  | nil => exact List.Forall₂.nil
  | cons d ds ih =>
      have hP : 0 < ds.prod := by
        rcases Nat.eq_zero_or_pos ds.prod with h0 | h0
        · simp [List.prod_cons, h0] at h
        · exact h0
      refine List.Forall₂.cons ?_ (ih (Nat.mod_lt _ hP))
      exact (Nat.div_lt_iff_lt_mul hP).mpr (by simpa [List.prod_cons, Nat.mul_comm] using h)

theorem rankIdx_unrankIdx {shape : Shape} {n : Nat} (h : n < shape.prod) :
    rankIdx shape (unrankIdx shape n) = n := by
  induction shape generalizing n with
  | nil => simp [List.prod_nil] at h; simp [unrankIdx, rankIdx, h]
  | cons d ds ih =>
      have hP : 0 < ds.prod := by
        rcases Nat.eq_zero_or_pos ds.prod with h0 | h0
        · simp [List.prod_cons, h0] at h
        · exact h0
      have := ih (Nat.mod_lt n hP)
      simp only [unrankIdx, rankIdx, this]
      rw [Nat.mul_comm]
      exact Nat.div_add_mod n ds.prod

theorem length_eq_of_validIdx {shape : Shape} {idx : List Nat}
    (h : ValidIdx shape idx) : idx.length = shape.length :=
  List.Forall₂.length_eq h

theorem subset_prod_le {shape : Shape} {bounds : Bounds} (h : WfBounds shape bounds) :
    (create_shape_from_slice shape bounds).prod ≤ shape.prod := by
  induction h with
  | nil => simp [create_shape_from_slice]
  | @cons p d bs ds hpd _ ih =>
      simp only [create_shape_from_slice, List.map_cons, List.prod_cons] at *
      exact Nat.mul_le_mul (by omega) ih

/-- A relative index is valid for the sub-block shape exactly when each of
its coordinates is below the corresponding bounds interval length. -/
theorem validIdx_slice_iff {shape : Shape} {bounds : Bounds} {rel : List Nat} :
    ValidIdx (create_shape_from_slice shape bounds) rel ↔
      List.Forall₂ (fun i p => i < p.2 - p.1) rel bounds := by
  simp [ValidIdx, create_shape_from_slice, List.forall₂_map_right_iff]

theorem inBoundsIdx_cons_iff {b : Nat × Nat} {bs : Bounds} {i : Nat} {is : List Nat} :
    inBoundsIdx (b :: bs) (i :: is) = true ↔
      (b.1 ≤ i ∧ i < b.2) ∧ inBoundsIdx bs is = true := by
  simp only [inBoundsIdx, List.length_cons, List.zip_cons_cons, List.all_cons,
    Bool.and_eq_true, beq_iff_eq, decide_eq_true_eq]
  constructor
  · rintro ⟨hl, hh, ht⟩
    exact ⟨hh, by omega, ht⟩
  · rintro ⟨hh, hl, ht⟩
    exact ⟨by omega, hh, ht⟩

theorem validIdx_absIdx {shape : Shape} {bounds : Bounds} {rel : List Nat}
    (hwf : WfBounds shape bounds)
    (hv : List.Forall₂ (fun i p => i < p.2 - p.1) rel bounds) :
    ValidIdx shape (absIdx bounds rel) := by
  induction hv generalizing shape with
  | nil =>
      cases hwf
      exact List.Forall₂.nil
  | @cons i p is bs hip _ ih =>
      cases hwf with
      | cons hpd hwtail =>
          simp only [absIdx, List.zip_cons_cons, List.map_cons]
          exact List.Forall₂.cons (by omega) (ih hwtail)

theorem inBoundsIdx_absIdx {bounds : Bounds} {rel : List Nat}
    (hv : List.Forall₂ (fun i p => i < p.2 - p.1) rel bounds) :
    inBoundsIdx bounds (absIdx bounds rel) = true := by
  induction hv with
  | nil => simp [inBoundsIdx, absIdx]
  | @cons i p is bs hip _ ih =>
      simp only [absIdx, List.zip_cons_cons, List.map_cons] at ih ⊢
      rw [inBoundsIdx_cons_iff]
      exact ⟨by omega, ih⟩

theorem relIdx_absIdx : ∀ (bounds : Bounds) (rel : List Nat),
    rel.length = bounds.length → relIdx bounds (absIdx bounds rel) = rel
  | [], [], _ => rfl
  | [], _ :: _, h => by simp at h
  | _ :: _, [], h => by simp at h
  | b :: bs, i :: is, h => by
      have h' : is.length = bs.length := by simpa using h
      have ih := relIdx_absIdx bs is h'
      simp only [relIdx, absIdx, List.zip_cons_cons, List.map_cons] at ih ⊢
      rw [show b.1 + i - b.1 = i by omega, ih]

theorem absIdx_relIdx : ∀ (bounds : Bounds) (idx : List Nat),
    inBoundsIdx bounds idx = true → absIdx bounds (relIdx bounds idx) = idx
  | [], [], _ => rfl
  | [], _ :: _, h => by simp [inBoundsIdx] at h
  | _ :: _, [], h => by simp [inBoundsIdx] at h
  | b :: bs, i :: is, h => by
      rw [inBoundsIdx_cons_iff] at h
      have ih := absIdx_relIdx bs is h.2
      simp only [absIdx, relIdx, List.zip_cons_cons, List.map_cons] at ih ⊢
      rw [show b.1 + (i - b.1) = i by omega, ih]

theorem validIdx_relIdx : ∀ (bounds : Bounds) (idx : List Nat),
    inBoundsIdx bounds idx = true →
      List.Forall₂ (fun i p => i < p.2 - p.1) (relIdx bounds idx) bounds
  | [], [], _ => List.Forall₂.nil
  | [], _ :: _, h => by simp [inBoundsIdx] at h
  | _ :: _, [], h => by simp [inBoundsIdx] at h
  | b :: bs, i :: is, h => by
      rw [inBoundsIdx_cons_iff] at h
      have ih := validIdx_relIdx bs is h.2
      simp only [relIdx, List.zip_cons_cons, List.map_cons] at ih ⊢
      exact List.Forall₂.cons (by omega) ih

theorem validIdx_of_inBounds {shape : Shape} : ∀ {bounds : Bounds} {idx : List Nat},
    WfBounds shape bounds → inBoundsIdx bounds idx = true → ValidIdx shape idx := by
  intro bounds idx hwf
  induction hwf generalizing idx with
  | nil =>
      cases idx with
      | nil => exact fun _ => List.Forall₂.nil
      | cons _ _ => intro h; simp [inBoundsIdx] at h
  | @cons p d bs ds hpd _ ih =>
      cases idx with
      | nil => intro h; simp [inBoundsIdx] at h
      | cons i is =>
          intro h
          rw [inBoundsIdx_cons_iff] at h
          exact List.Forall₂.cons (by omega) (ih h.2)

theorem getD_range_map (f : Nat → α) {n i : Nat} (d : α) (h : i < n) :
    ((List.range n).map f).getD i d = f i := by
  rw [List.getD_eq_getElem?_getD, List.getElem?_map, List.getElem?_range h]
  rfl

theorem getD_replicate (a : α) (n i : Nat) :
    (List.replicate n a).getD i a = a := by
  rw [List.getD_eq_getElem?_getD, List.getElem?_replicate]
  by_cases h : i < n <;> simp [h]

/-- Slicing a fill-value-filled block yields a fill-value-filled sub-block. -/
theorem sliceRead_replicate (shape : Shape) (bounds : Bounds) (m : Nat) (fill : α) :
    sliceRead shape bounds (List.replicate m fill) fill =
      List.replicate (create_shape_from_slice shape bounds).prod fill := by
  unfold sliceRead
  rw [List.map_congr_left (g := fun _ => fill) (fun j _ => getD_replicate fill m _),
    List.map_const', List.length_range]

/-- The value of the written block at a flat position inside the bounds. -/
theorem writeSlice_getD_inBounds {shape : Shape} {bounds : Bounds} {data : List α}
    (old : Nat → α) (dflt dflt' : α) {pos : Nat} (hpos : pos < shape.prod)
    (hin : inBoundsIdx bounds (unrankIdx shape pos) = true) :
    (writeSlice shape bounds old data dflt).getD pos dflt' =
      data.getD
        (rankIdx (create_shape_from_slice shape bounds) (relIdx bounds (unrankIdx shape pos)))
        dflt := by
  unfold writeSlice
  rw [getD_range_map _ dflt' hpos]
  simp [hin]

/-- Round trip at the slice level: reading back the bounds just written
returns exactly the written data. -/
theorem sliceRead_writeSlice {shape : Shape} {bounds : Bounds}
    {data : List α} (old : Nat → α) (dflt dflt' : α)
    (hwf : WfBounds shape bounds)
    (hlen : data.length = (create_shape_from_slice shape bounds).prod) :
    sliceRead shape bounds (writeSlice shape bounds old data dflt) dflt' = data := by
  apply List.ext_getElem
  · simp [sliceRead, hlen]
  intro j hj hj2
  have hjlt : j < (create_shape_from_slice shape bounds).prod := by
    simpa [sliceRead] using hj
  have hvrel : ValidIdx (create_shape_from_slice shape bounds)
      (unrankIdx (create_shape_from_slice shape bounds) j) := validIdx_unrankIdx hjlt
  have hvrel' : List.Forall₂ (fun i p => i < p.2 - p.1)
      (unrankIdx (create_shape_from_slice shape bounds) j) bounds :=
    validIdx_slice_iff.mp hvrel
  have hvabs : ValidIdx shape (absIdx bounds (unrankIdx _ j)) := validIdx_absIdx hwf hvrel'
  have hpos : selPos shape bounds j < shape.prod := rankIdx_lt hvabs
  have hread : (sliceRead shape bounds (writeSlice shape bounds old data dflt) dflt')[j] =
      (writeSlice shape bounds old data dflt).getD (selPos shape bounds j) dflt' := by
    simp [sliceRead]
  have hunr : unrankIdx shape (selPos shape bounds j) =
      absIdx bounds (unrankIdx (create_shape_from_slice shape bounds) j) :=
    unrankIdx_rankIdx hvabs
  rw [hread, writeSlice_getD_inBounds old dflt dflt' hpos
    (by rw [hunr]; exact inBoundsIdx_absIdx hvrel')]
  have hrellen : (unrankIdx (create_shape_from_slice shape bounds) j).length =
      bounds.length := by
    have := length_eq_of_validIdx hvrel
    simpa [create_shape_from_slice] using this
  rw [hunr, relIdx_absIdx bounds _ hrellen, rankIdx_unrankIdx hjlt,
    List.getD_eq_getElem?_getD, List.getElem?_eq_getElem (by omega : j < data.length)]
  rfl


theorem matchesFill_self [DecidableEq α] (isNaN : α → Bool) (fill : α) :
    matchesFill isNaN fill fill = true := by
  unfold matchesFill
  split <;> simp_all

theorem countFill_eq_countP [DecidableEq α] (isNaN : α → Bool) (fill : α)
    (data : List α) : countFill isNaN fill data = data.countP (matchesFill isNaN fill) := by
  unfold countFill matchesFill
  split <;> simp_all

theorem fillAwareEq_refl [DecidableEq α] (isNaN : α → Bool) (fill : α) (xs : List α) :
    FillAwareEq isNaN fill xs xs :=
  ⟨rfl, fun _ _ => Or.inl rfl⟩

open HDF5StorageAdapter in
/-- Claim C2: immediately after `create(path, shape, metadata)` the container
holds the metadata blob, its empty-cell counter equals the total cell count
implied by the shape, no dense data block exists, and `read_data` over any
bounds returns a block (of the selected sub-shape's size) in which every
element equals the fill value. -/
theorem claim_C2 (shape : Shape) (metadata : μ) :
    (create shape metadata : H5File μ α).meta = some metadata ∧
    (create shape metadata : H5File μ α).empty_cells =
      (calculate_total_cells_in_array shape : Int) ∧
    (create shape metadata : H5File μ α).data = none ∧
    ∀ (bounds : Bounds) (fill : α),
      read_data (create shape metadata : H5File μ α) shape bounds fill =
        List.replicate (create_shape_from_slice shape bounds).prod fill := by
  refine ⟨rfl, rfl, rfl, fun bounds fill => ?_⟩
  simp only [read_data, create]
  exact sliceRead_replicate shape bounds _ fill

open HDF5StorageAdapter in
/-- Claim C1: for a container at a state whose empty-cell counter does not
exceed the total cell count and whose dense block (if any) has the array's
shape, after `update_data` with bounds `b` and matching-size data `D`, a
`read_data` at the same bounds returns a block fill-aware-equal to `D`
(exactly `D` except that cells of `D` holding the fill value may be
represented through the elided dense block, NaN-aware). -/
theorem claim_C1 [DecidableEq α] (f : H5File μ α) (shape : Shape) (bounds : Bounds)
    (data : List α) (fill : α) (isNaN : α → Bool)
    (hwf : WfBounds shape bounds)
    (hlen : data.length = (create_shape_from_slice shape bounds).prod)
    (hcnt : f.empty_cells ≤ (calculate_total_cells_in_array shape : Int))
    (hshape : ∀ ds, f.data = some ds → ds.shape = shape) :
    FillAwareEq isNaN fill
      (read_data (update_data f bounds data shape fill isNaN) shape bounds fill) data := by
  have hsle : (create_shape_from_slice shape bounds).prod ≤ shape.prod :=
    subset_prod_le hwf
  have hfcle : countFill isNaN fill data ≤ (create_shape_from_slice shape bounds).prod := by
    rw [countFill_eq_countP]
    exact hlen ▸ List.countP_le_length _
  simp only [calculate_total_cells_in_array] at hcnt
  -- deletion branch: the dense block is removed, a read synthesizes from
  -- the fill value; in that branch every cell of `data` counts as fill.
  have hdelAux : countFill isNaN fill data = (create_shape_from_slice shape bounds).prod →
      FillAwareEq isNaN fill
        (read_data (⟨f.meta, ((shape.prod : Nat) : Int), none⟩ : H5File μ α)
          shape bounds fill) data := by
    intro hfc
    have hall : ∀ v ∈ data, matchesFill isNaN fill v = true := by
      rw [countFill_eq_countP] at hfc
      exact List.countP_eq_length.mp (by omega)
    simp only [read_data, calculate_total_cells_in_array]
    rw [sliceRead_replicate]
    refine ⟨by simp [hlen], fun j hj => ?_⟩
    have hjlt : j < (create_shape_from_slice shape bounds).prod := by simpa using hj
    refine Or.inr ⟨?_, ?_⟩
    · rw [getD_replicate]
      exact matchesFill_self isNaN fill
    · refine hall _ ?_
      rw [List.getD_eq_getElem?_getD, List.getElem?_eq_getElem (by omega : j < data.length)]
      apply List.getElem_mem
  -- overwrite branch, dense block present: the read returns `data` exactly.
  have hwriteSome : ∀ (ds : DataBlock α) (e : Int), f.data = some ds →
      FillAwareEq isNaN fill
        (read_data (⟨f.meta, e,
            some ⟨ds.shape, writeSlice ds.shape bounds (fun i => ds.cells.getD i fill)
              data fill⟩⟩ : H5File μ α) shape bounds fill) data := by
    intro ds e hds
    have hdss : ds.shape = shape := hshape ds hds
    simp only [read_data]
    rw [hdss, sliceRead_writeSlice _ fill fill hwf hlen]
    exact fillAwareEq_refl isNaN fill data
  -- overwrite branch, fresh block: the read returns `data` exactly.
  have hwriteNone : ∀ e : Int,
      FillAwareEq isNaN fill
        (read_data (⟨f.meta, e,
            some ⟨shape, writeSlice shape bounds (fun _ => fill) data fill⟩⟩ : H5File μ α)
          shape bounds fill) data := by
    intro e
    simp only [read_data]
    rw [sliceRead_writeSlice _ fill fill hwf hlen]
    exact fillAwareEq_refl isNaN fill data
  simp only [update_data, calculate_total_cells_in_array]
  split
  next hclamp =>
    split
    next hbr => exact hdelAux (by omega)
    next hbr =>
      split
      next ds hds => exact hwriteSome ds _ hds
      next hds => exact hwriteNone _
  next hclamp =>
    split
    next hbr => exact hdelAux (by omega)
    next hbr =>
      split
      next ds hds => exact hwriteSome ds _ hds
      next hds => exact hwriteNone _

/-- Witness for C1: a concrete container of shape `[2,3]` at fill value `0`
with counter `6` and no block; writing `[1,2,3,4]` into rows `0..2`,
columns `1..3` and reading the same bounds returns the written data. -/
theorem claim_C1_witness :
    WfBounds [2,3] [(0,2),(1,3)] ∧
    FillAwareEq (fun _ => false) (0 : Int)
      (HDF5StorageAdapter.read_data
        (HDF5StorageAdapter.update_data
          (HDF5StorageAdapter.create [2,3] (0 : Nat) : H5File Nat Int)
          [(0,2),(1,3)] [1,2,3,4] [2,3] 0 (fun _ => false))
        [2,3] [(0,2),(1,3)] 0)
      [1,2,3,4] := by
  refine ⟨by decide, ?_⟩
  exact claim_C1 (HDF5StorageAdapter.create [2,3] (0 : Nat)) [2,3] [(0,2),(1,3)]
    [1,2,3,4] 0 (fun _ => false) (by decide) (by decide) (by decide)
    (by intro ds h; simp [HDF5StorageAdapter.create] at h)

theorem mem_cellFinset {shape : Shape} {bounds : Bounds} {i : Nat} :
    i ∈ cellFinset shape bounds ↔
      i < shape.prod ∧ inBoundsIdx bounds (unrankIdx shape i) = true := by
  simp [cellFinset]

/-- A well-formed hyperrectangular slice covers exactly as many distinct
cells as the product of its per-dimension lengths. -/
theorem card_cellFinset {shape : Shape} {bounds : Bounds} (hwf : WfBounds shape bounds) :
    (cellFinset shape bounds).card = (create_shape_from_slice shape bounds).prod := by
  rw [show (create_shape_from_slice shape bounds).prod =
      (Finset.range (create_shape_from_slice shape bounds).prod).card from
    (Finset.card_range _).symm]
  apply Finset.card_nbij'
    (fun i => rankIdx (create_shape_from_slice shape bounds) (relIdx bounds (unrankIdx shape i)))
    (fun j => selPos shape bounds j)
  · intro a ha
    rw [mem_cellFinset] at ha
    rw [Finset.mem_range]
    exact rankIdx_lt (validIdx_slice_iff.mpr (validIdx_relIdx bounds _ ha.2))
  · intro j hj
    rw [Finset.mem_range] at hj
    rw [mem_cellFinset]
    have hvrel' := validIdx_slice_iff.mp (validIdx_unrankIdx hj)
    refine ⟨rankIdx_lt (validIdx_absIdx hwf hvrel'), ?_⟩
    rw [selPos, unrankIdx_rankIdx (validIdx_absIdx hwf hvrel')]
    exact inBoundsIdx_absIdx hvrel'
  · intro a ha
    rw [mem_cellFinset] at ha
    rw [selPos, unrankIdx_rankIdx (validIdx_slice_iff.mpr (validIdx_relIdx bounds _ ha.2)),
      absIdx_relIdx bounds _ ha.2]
    exact rankIdx_unrankIdx ha.1
  · intro j hj
    rw [Finset.mem_range] at hj
    have hvrel' := validIdx_slice_iff.mp (validIdx_unrankIdx hj)
    rw [selPos, unrankIdx_rankIdx (validIdx_absIdx hwf hvrel'),
      relIdx_absIdx bounds _ (by
        have := length_eq_of_validIdx (validIdx_unrankIdx hj)
        simpa [create_shape_from_slice] using this),
      rankIdx_unrankIdx hj]

theorem mem_unionCells {shape : Shape} :
    ∀ {bs : List Bounds} {i : Nat},
      i ∈ unionCells shape bs ↔ ∃ b ∈ bs, i ∈ cellFinset shape b := by
  intro bs
  induction bs with
  | nil => simp [unionCells]
  | cons b bs ih => intro i; simp [unionCells, ih]

/-- Pairwise-disjoint slices together cover a number of distinct cells equal
to the sum of their individual cell counts. -/
theorem card_unionCells {shape : Shape} {bs : List Bounds}
    (h : bs.Pairwise fun b1 b2 => Disjoint (cellFinset shape b1) (cellFinset shape b2)) :
    (unionCells shape bs).card = (bs.map fun b => (cellFinset shape b).card).sum := by
  induction h with
  | nil => simp [unionCells]
  | @cons b l hb _ ih =>
      have hdisj : Disjoint (cellFinset shape b) (unionCells shape l) := by
        rw [Finset.disjoint_left]
        intro x hx hx'
        rw [mem_unionCells] at hx'
        obtain ⟨b', hb', hxb⟩ := hx'
        exact (Finset.disjoint_left.mp (hb b' hb')) hx hxb
      simp [unionCells, Finset.card_union_of_disjoint hdisj, ih]

open HDF5StorageAdapter in
/-- The empty-cell counter after one `update_data`, as a closed formula:
the previous counter minus the covered region's cell count (clamped at
zero) plus the NaN-aware count of fill-valued cells of the data, itself
capped at the total cell count. -/
theorem update_data_empty_cells [DecidableEq α] (f : H5File μ α) (bounds : Bounds)
    (data : List α) (shape : Shape) (fill : α) (isNaN : α → Bool) :
    (update_data f bounds data shape fill isNaN).empty_cells =
      if (if f.empty_cells - ((create_shape_from_slice shape bounds).prod : Int) > 0
            then f.empty_cells - ((create_shape_from_slice shape bounds).prod : Int) else 0)
          + (countFill isNaN fill data : Int) ≥ (shape.prod : Int)
      then (shape.prod : Int)
      else (if f.empty_cells - ((create_shape_from_slice shape bounds).prod : Int) > 0
            then f.empty_cells - ((create_shape_from_slice shape bounds).prod : Int) else 0)
          + (countFill isNaN fill data : Int) := by
  simp only [update_data, calculate_total_cells_in_array]
  split
  next =>
    split
    next => rfl
    next =>
      split
      next ds _ => rfl
      next => rfl
  next =>
    split
    next => rfl
    next =>
      split
      next ds _ => rfl
      next => rfl

open HDF5StorageAdapter in
/-- Invariant of a fold of `update_data` calls whose data contains no
fill-valued cell: starting from a counter of `total - T`, after writes whose
regions have `Σ` cells in total (with `T + Σ ≤ total`), the counter is
`total - (T + Σ)`. -/
theorem foldl_update_empty_cells [DecidableEq α] (shape : Shape) (fill : α)
    (isNaN : α → Bool) :
    ∀ (ws : List (Bounds × List α)) (f : H5File μ α) (T : Nat),
      T + (ws.map fun w => (create_shape_from_slice shape w.1).prod).sum ≤ shape.prod →
      (∀ w ∈ ws, ∀ v ∈ w.2, matchesFill isNaN fill v = false) →
      f.empty_cells = (shape.prod : Int) - (T : Int) →
      (ws.foldl (fun g w => update_data g w.1 w.2 shape fill isNaN) f).empty_cells =
        (shape.prod : Int) -
          ((T : Int) + ((ws.map fun w => (create_shape_from_slice shape w.1).prod).sum : Int))
  | [], f, T, _, _, hf => by simpa using hf
  | w :: ws, f, T, hle, hnf, hf => by
      have hfc : countFill isNaN fill w.2 = 0 := by
        rw [countFill_eq_countP, List.countP_eq_zero]
        intro v hv
        simp [hnf w (by simp) v hv]
      have hs := update_data_empty_cells f w.1 w.2 shape fill isNaN
      rw [hfc, hf] at hs
      have hle' : T + (create_shape_from_slice shape w.1).prod ≤ shape.prod := by
        simp only [List.map_cons, List.sum_cons] at hle
        omega
      have hstep : (update_data f w.1 w.2 shape fill isNaN).empty_cells =
          (shape.prod : Int) - ((T + (create_shape_from_slice shape w.1).prod : Nat) : Int) := by
        rw [hs]
        split <;> split <;> omega
      have hrec := foldl_update_empty_cells shape fill isNaN ws
        (update_data f w.1 w.2 shape fill isNaN)
        (T + (create_shape_from_slice shape w.1).prod)
        (by simp only [List.map_cons, List.sum_cons] at hle; omega)
        (fun w' hw' => hnf w' (by simp [hw']))
        hstep
      simp only [List.foldl_cons]
      rw [hrec]
      simp only [List.map_cons, List.sum_cons]
      push_cast
      ring

open HDF5StorageAdapter in
/-- Claim C3: starting from a freshly created container with total cell
count `N`, after any finite sequence of `update_data` calls with pairwise
disjoint well-formed bounds whose data holds no fill-valued cell, the
empty-cell counter equals `N - k` where `k` is the number of distinct cells
the writes cover. -/
theorem claim_C3 [DecidableEq α] (shape : Shape) (metadata : μ) (fill : α)
    (isNaN : α → Bool) (writes : List (Bounds × List α))
    (hwf : ∀ w ∈ writes, WfBounds shape w.1)
    (hlen : ∀ w ∈ writes, w.2.length = (create_shape_from_slice shape w.1).prod)
    (hnofill : ∀ w ∈ writes, ∀ v ∈ w.2, matchesFill isNaN fill v = false)
    (hdisj : (writes.map Prod.fst).Pairwise
      fun b1 b2 => Disjoint (cellFinset shape b1) (cellFinset shape b2)) :
    (writes.foldl (fun f w => update_data f w.1 w.2 shape fill isNaN)
        (create shape metadata : H5File μ α)).empty_cells =
      (calculate_total_cells_in_array shape : Int) -
        ((unionCells shape (writes.map Prod.fst)).card : Int) := by
  have hcard : (unionCells shape (writes.map Prod.fst)).card =
      ((writes.map Prod.fst).map fun b => (cellFinset shape b).card).sum :=
    card_unionCells hdisj
  have hmapeq : ((writes.map Prod.fst).map fun b => (cellFinset shape b).card) =
      writes.map fun w => (create_shape_from_slice shape w.1).prod := by
    rw [List.map_map]
    apply List.map_congr_left
    intro w hw
    exact card_cellFinset (hwf w hw)
  have hsub : unionCells shape (writes.map Prod.fst) ⊆ Finset.range shape.prod := by
    intro i hi
    rw [mem_unionCells] at hi
    obtain ⟨b, _, hib⟩ := hi
    rw [mem_cellFinset] at hib
    exact Finset.mem_range.mpr hib.1
  have hle : (writes.map fun w => (create_shape_from_slice shape w.1).prod).sum ≤
      shape.prod := by
    calc (writes.map fun w => (create_shape_from_slice shape w.1).prod).sum
        = (unionCells shape (writes.map Prod.fst)).card := by rw [hcard, hmapeq]
      _ ≤ (Finset.range shape.prod).card := Finset.card_le_card hsub
      _ = shape.prod := Finset.card_range _
  have hfold := foldl_update_empty_cells shape fill isNaN writes
    (create shape metadata : H5File μ α) 0 (by omega) hnofill
    (by simp [create, calculate_total_cells_in_array])
  rw [hfold, hcard, hmapeq]
  simp [calculate_total_cells_in_array]

open HDF5StorageAdapter in
/-- Witness for C3: on a `[2,2]` array with fill value `0`, two disjoint
writes covering three distinct cells leave the counter at `4 - 3`. -/
theorem claim_C3_witness :
    (([([(0,1),(0,2)], [1,2]), ([(1,2),(0,1)], [3])] : List (Bounds × List Int)).foldl
        (fun f w => update_data f w.1 w.2 [2,2] 0 (fun _ => false))
        (create [2,2] (0 : Nat) : H5File Nat Int)).empty_cells =
      (calculate_total_cells_in_array [2,2] : Int) -
        ((unionCells [2,2] ([([(0,1),(0,2)], [1,2]), ([(1,2),(0,1)], [3])].map
          Prod.fst)).card : Int) := by
  exact claim_C3 [2,2] (0 : Nat) (0 : Int) (fun _ => false)
    [([(0,1),(0,2)], [1,2]), ([(1,2),(0,1)], [3])]
    (by decide) (by decide) (by decide) (by decide)

open HDF5StorageAdapter in
/-- Counterexample to claim C4 as stated: a `[2]`-shaped container with fill
value `0`, dense block `[5, 0]` and (correct) empty-cell counter `1`.  The
region selected by bounds `[(1,2)]` already holds the fill value (the read
returns `[0]`), yet `clear_data` over it changes the counter from `1` to the
total `2` (and deletes the dense block). -/
theorem claim_C4_counterexample :
    read_data (⟨some 0, 1, some ⟨[2], [5, 0]⟩⟩ : H5File Nat Int) [2] [(1,2)] 0 =
      List.replicate (create_shape_from_slice [2] [(1,2)]).prod 0 ∧
    (clear_data (⟨some 0, 1, some ⟨[2], [5, 0]⟩⟩ : H5File Nat Int) [2] [(1,2)] 0).empty_cells ≠
      (⟨some 0, 1, some ⟨[2], [5, 0]⟩⟩ : H5File Nat Int).empty_cells := by
  constructor
  · decide
  · decide

open HDF5StorageAdapter in
/-- Claim C4 as amended: clearing a region already at the fill value leaves
the empty-cell counter unchanged only when no dense block exists (then the
call is a no-op); when a dense block exists, `clear_data` unconditionally
adds the region's cell count to the counter — deleting the block and
setting the counter to the total cell count when the region's shape spans
the whole block or the sum reaches the total. -/
theorem claim_C4 [DecidableEq α] (f : H5File μ α) (shape : Shape) (bounds : Bounds)
    (fill : α)
    (hfillregion : read_data f shape bounds fill =
      List.replicate (create_shape_from_slice shape bounds).prod fill) :
    (clear_data f shape bounds fill).empty_cells =
      match f.data with
      | none => f.empty_cells
      | some ds =>
          if ds.shape = create_shape_from_slice shape bounds ∨
              f.empty_cells + ((create_shape_from_slice shape bounds).prod : Int) ≥
                (shape.prod : Int)
          then (shape.prod : Int)
          else f.empty_cells + ((create_shape_from_slice shape bounds).prod : Int) := by
  simp only [clear_data, calculate_total_cells_in_array]
  cases hd : f.data with
  | none => rfl
  | some ds =>
      simp only []
      split <;> rfl

open HDF5StorageAdapter in
/-- Witness for the amended C4: on a container with no dense block, clearing
a (fill-valued) region leaves the counter unchanged. -/
theorem claim_C4_witness :
    (clear_data (⟨some 0, 2, none⟩ : H5File Nat Int) [2] [(0,1)] 0).empty_cells =
      (⟨some 0, 2, none⟩ : H5File Nat Int).empty_cells := by
  exact claim_C4 (⟨some 0, 2, none⟩ : H5File Nat Int) [2] [(0,1)] 0 (by decide)

open HDF5StorageAdapter in
/-- Claim C5: when a dense block exists and either the bounds span the whole
block (the block's shape equals the selected region's shape) or clearing
drives the counter to the total cell count, `clear_data` deletes the dense
block and sets the counter to the total, so any subsequent `read_data`
synthesizes its result from the fill value. -/
theorem claim_C5 [DecidableEq α] (f : H5File μ α) (shape : Shape) (bounds : Bounds)
    (fill : α) (ds : DataBlock α) (hds : f.data = some ds)
    (hcond : ds.shape = create_shape_from_slice shape bounds ∨
      f.empty_cells + ((create_shape_from_slice shape bounds).prod : Int) ≥
        (shape.prod : Int)) :
    (clear_data f shape bounds fill).data = none ∧
    (clear_data f shape bounds fill).empty_cells =
      (calculate_total_cells_in_array shape : Int) ∧
    ∀ (bounds2 : Bounds) (fill2 : α),
      read_data (clear_data f shape bounds fill) shape bounds2 fill2 =
        List.replicate (create_shape_from_slice shape bounds2).prod fill2 := by
  have hclear : clear_data f shape bounds fill =
      { f with data := none, empty_cells := (calculate_total_cells_in_array shape : Int) } := by
    simp only [clear_data, hds, calculate_total_cells_in_array]
    split
    next => rfl
    next h => exact absurd hcond h
  refine ⟨by rw [hclear], by rw [hclear], fun bounds2 fill2 => ?_⟩
  rw [hclear]
  simp only [read_data, calculate_total_cells_in_array]
  exact sliceRead_replicate shape bounds2 _ fill2

open HDF5StorageAdapter in
/-- Witness for C5: clearing the full extent of a `[2]`-shaped container
whose dense block is `[5, 0]` removes the block, sets the counter to `2`,
and a subsequent full read returns fill values only. -/
theorem claim_C5_witness :
    (clear_data (⟨some 0, 1, some ⟨[2], [5, 0]⟩⟩ : H5File Nat Int) [2] [(0,2)] 0).data = none ∧
    (clear_data (⟨some 0, 1, some ⟨[2], [5, 0]⟩⟩ : H5File Nat Int) [2]
        [(0,2)] 0).empty_cells = (calculate_total_cells_in_array [2] : Int) ∧
    read_data (clear_data (⟨some 0, 1, some ⟨[2], [5, 0]⟩⟩ : H5File Nat Int) [2] [(0,2)] 0)
        [2] [(0,2)] 0 =
      List.replicate (create_shape_from_slice [2] [(0,2)]).prod 0 := by
  have h := claim_C5 (⟨some 0, 1, some ⟨[2], [5, 0]⟩⟩ : H5File Nat Int) [2] [(0,2)]
    (0 : Int) ⟨[2], [5, 0]⟩ rfl (by decide)
  exact ⟨h.1, h.2.1, h.2.2 [(0,2)] 0⟩

/-- Counterexample to claim C6 as stated: at a path already holding a
container (counter `0`, dense block `[7, 8]`), the Container Codec
`create` (`h5py.File(path, "w")`) does not fail — it succeeds and replaces
the container with a fresh one. -/
theorem claim_C6_counterexample :
    (storageCreateFile
        (⟨[(["array_data", "a1", "a1"], ⟨some 1, 0, some ⟨[2], [7, 8]⟩⟩)], [], []⟩ :
          ArrayFS Nat Int)
        ["array_data", "a1", "a1"] [2] 0).2 = none ∧
    lookupContainer
        (storageCreateFile
          (⟨[(["array_data", "a1", "a1"], ⟨some 1, 0, some ⟨[2], [7, 8]⟩⟩)], [], []⟩ :
            ArrayFS Nat Int)
          ["array_data", "a1", "a1"] [2] 0).1 ["array_data", "a1", "a1"] ≠
      lookupContainer
        (⟨[(["array_data", "a1", "a1"], ⟨some 1, 0, some ⟨[2], [7, 8]⟩⟩)], [], []⟩ :
          ArrayFS Nat Int) ["array_data", "a1", "a1"] := by
  constructor
  · rfl
  · decide

/-- Claim C6 as amended: the existence check lives in the Primary Store, not
the codec: `LocalArrayAdapter.create` fails with `DekerArrayError` when the
main container file already exists, writing no container and no link record
(the existing container is untouched); the codec-level `create` itself
truncates. -/
theorem claim_C6 [DecidableEq α] (dataDir symDir varrayDataDir : String)
    (fs : ArrayFS μ α) (a : ArraySpec μ)
    (hmain : fileExistsFS fs (mainFileOf dataDir a) = true) :
    (localArrayAdapterCreate dataDir symDir varrayDataDir fs a).2 =
      some DekerError.dekerArrayError ∧
    (localArrayAdapterCreate dataDir symDir varrayDataDir fs a).1.containers =
      fs.containers ∧
    (localArrayAdapterCreate dataDir symDir varrayDataDir fs a).1.symlinks =
      fs.symlinks := by
  have h1 : fileExistsFS
      { fs with dirs := mainDirOf dataDir a :: symDirOf symDir a :: fs.dirs }
      (mainFileOf dataDir a) = true := hmain
  simp only [localArrayAdapterCreate]
  rw [if_pos h1]
  exact ⟨rfl, rfl, rfl⟩

/-- Witness for the amended C6: creating over an occupied main path fails
with `DekerArrayError` and leaves containers and symlinks unchanged. -/
theorem claim_C6_witness :
    (localArrayAdapterCreate ("array_data") ("array_symlinks") ("varray_data")
        (⟨[(["array_data", "a1", "a1"], ⟨some 1, 0, some ⟨[2], [7, 8]⟩⟩)], [], []⟩ :
          ArrayFS Nat Int)
        ⟨"a1", none, ["x"], [2], 0⟩).2 = some DekerError.dekerArrayError ∧
    (localArrayAdapterCreate ("array_data") ("array_symlinks") ("varray_data")
        (⟨[(["array_data", "a1", "a1"], ⟨some 1, 0, some ⟨[2], [7, 8]⟩⟩)], [], []⟩ :
          ArrayFS Nat Int)
        ⟨"a1", none, ["x"], [2], 0⟩).1.containers =
      [(["array_data", "a1", "a1"], ⟨some 1, 0, some ⟨[2], [7, 8]⟩⟩)] := by
  have h := claim_C6 ("array_data") ("array_symlinks") ("varray_data")
    (⟨[(["array_data", "a1", "a1"], ⟨some 1, 0, some ⟨[2], [7, 8]⟩⟩)], [], []⟩ :
      ArrayFS Nat Int)
    ⟨"a1", none, ["x"], [2], 0⟩ (by decide)
  exact ⟨h.1, h.2.1⟩

/-- Counterexample to claim C7 as stated: after an array with primary
attribute values `["x"]` exists, creating a second array with the same
attribute values fails — but with `DekerValidationError`, the
validation-error class, not a distinct AlreadyExists condition; no
container file or link record is written. -/
theorem claim_C7_counterexample :
    (localArrayAdapterCreate ("array_data") ("array_symlinks") ("varray_data")
        (⟨[(["array_data", "a1", "a1"], HDF5StorageAdapter.create [2] 0)],
          [(["array_symlinks", "x", "a1"], ["array_data", "a1", "a1"])],
          [["array_data", "a1"], ["array_symlinks", "x"]]⟩ : ArrayFS Nat Int)
        ⟨"a2", none, ["x"], [2], 0⟩).2 = some DekerError.dekerValidationError ∧
    errorTaxonomy DekerError.dekerValidationError ≠ ErrorCategory.alreadyExists ∧
    (localArrayAdapterCreate ("array_data") ("array_symlinks") ("varray_data")
        (⟨[(["array_data", "a1", "a1"], HDF5StorageAdapter.create [2] 0)],
          [(["array_symlinks", "x", "a1"], ["array_data", "a1", "a1"])],
          [["array_data", "a1"], ["array_symlinks", "x"]]⟩ : ArrayFS Nat Int)
        ⟨"a2", none, ["x"], [2], 0⟩).1.containers =
      [(["array_data", "a1", "a1"], HDF5StorageAdapter.create [2] 0)] ∧
    (localArrayAdapterCreate ("array_data") ("array_symlinks") ("varray_data")
        (⟨[(["array_data", "a1", "a1"], HDF5StorageAdapter.create [2] 0)],
          [(["array_symlinks", "x", "a1"], ["array_data", "a1", "a1"])],
          [["array_data", "a1"], ["array_symlinks", "x"]]⟩ : ArrayFS Nat Int)
        ⟨"a2", none, ["x"], [2], 0⟩).1.symlinks =
      [(["array_symlinks", "x", "a1"], ["array_data", "a1", "a1"])] := by
  refine ⟨?_, by decide, ?_, ?_⟩ <;> rfl

/-- Claim C7 as amended: with a fresh main path and a non-empty symlink
shard directory for the declared primary attributes, the second creation
fails with `DekerValidationError` — filed by the taxonomy under
ValidationError, not AlreadyExists — and writes no container file and no
link record (shard directories may have been created before the check). -/
theorem claim_C7 [DecidableEq α] (dataDir symDir varrayDataDir : String)
    (fs : ArrayFS μ α) (a : ArraySpec μ)
    (hmain : fileExistsFS fs (mainFileOf dataDir a) = false)
    (hvid : a.vid = none)
    (hattrs : a.primary_attributes ≠ [])
    (hsym : dirNonEmpty fs (symDirOf symDir a) = true) :
    (localArrayAdapterCreate dataDir symDir varrayDataDir fs a).2 =
      some DekerError.dekerValidationError ∧
    errorTaxonomy DekerError.dekerValidationError = ErrorCategory.validationError ∧
    (localArrayAdapterCreate dataDir symDir varrayDataDir fs a).1.containers =
      fs.containers ∧
    (localArrayAdapterCreate dataDir symDir varrayDataDir fs a).1.symlinks =
      fs.symlinks := by
  have h1 : ¬ (fileExistsFS
      { fs with dirs := mainDirOf dataDir a :: symDirOf symDir a :: fs.dirs }
      (mainFileOf dataDir a) = true) := by
    have : fileExistsFS
        { fs with dirs := mainDirOf dataDir a :: symDirOf symDir a :: fs.dirs }
        (mainFileOf dataDir a) = false := hmain
    simp [this]
  have hsym1 : dirNonEmpty
      { fs with dirs := mainDirOf dataDir a :: symDirOf symDir a :: fs.dirs }
      (symDirOf symDir a) = true := by
    simp only [dirNonEmpty, List.any_cons, Bool.or_eq_true] at hsym ⊢
    tauto
  have hne : (!a.primary_attributes.isEmpty && dirNonEmpty
      { fs with dirs := mainDirOf dataDir a :: symDirOf symDir a :: fs.dirs }
      (symDirOf symDir a)) = true := by
    rw [hsym1]
    cases hpa : a.primary_attributes with
    | nil => exact absurd hpa hattrs
    | cons x xs => simp
  simp only [localArrayAdapterCreate]
  rw [if_neg h1, hvid]
  simp only [Bool.not_eq_true]
  rw [if_neg (by simp), if_pos hne]
  exact ⟨rfl, rfl, rfl, rfl⟩

/-- Witness for the amended C7: the concrete duplicate-attribute creation
fails with `DekerValidationError` and leaves containers and symlinks
unchanged. -/
theorem claim_C7_witness :
    (localArrayAdapterCreate ("array_data") ("array_symlinks") ("varray_data")
        (⟨[(["array_data", "a1", "a1"], HDF5StorageAdapter.create [2] 0)],
          [(["array_symlinks", "x", "a1"], ["array_data", "a1", "a1"])],
          [["array_data", "a1"], ["array_symlinks", "x"]]⟩ : ArrayFS Nat Int)
        ⟨"a2", none, ["x"], [2], 0⟩).2 = some DekerError.dekerValidationError ∧
    errorTaxonomy DekerError.dekerValidationError = ErrorCategory.validationError := by
  have h := claim_C7 ("array_data") ("array_symlinks") ("varray_data")
    (⟨[(["array_data", "a1", "a1"], HDF5StorageAdapter.create [2] 0)],
      [(["array_symlinks", "x", "a1"], ["array_data", "a1", "a1"])],
      [["array_data", "a1"], ["array_symlinks", "x"]]⟩ : ArrayFS Nat Int)
    ⟨"a2", none, ["x"], [2], 0⟩ (by decide) rfl (by decide) (by decide)
  exact ⟨h.1, h.2.1⟩

/-- Claim C8: on a shard directory satisfying the link-record invariants of
the data model (at most one entry — link records are unique per attribute
combination — and every entry a regular file or a symlink), the lookup
raises `DekerBrokenSymlinkError` whenever the directory contains a broken
symlink, and returns the absent result exactly when the directory is
missing or empty. -/
theorem claim_C8 (dir : Option (List DirEntry))
    (huniq : ∀ es, dir = some es → es.length ≤ 1)
    (hkinds : ∀ es, dir = some es → ∀ e ∈ es, e.is_file = true ∨ e.is_symlink = true) :
    (∀ es, dir = some es →
      (∃ e ∈ es, e.is_symlink = true ∧ e.is_file = false) →
      get_by_primary_attributes dir =
        LookupResult.errored DekerError.dekerBrokenSymlinkError) ∧
    (get_by_primary_attributes dir = LookupResult.absent ↔
      dir = none ∨ dir = some []) := by
  cases dir with
  | none => simp [get_by_primary_attributes]
  | some es =>
      cases es with
      | nil => simp [get_by_primary_attributes, scanSymlinkDir]
      | cons e rest =>
          have hr : rest = [] := by
            have := huniq (e :: rest) rfl
            simp only [List.length_cons] at this
            exact List.length_eq_zero.mp (by omega)
          subst hr
          have hk := hkinds [e] rfl e (by simp)
          constructor
          · rintro es' hes' ⟨e', he', hsym, hfile⟩
            obtain rfl : es' = [e] := by injection hes' with h; exact h.symm
            obtain rfl : e' = e := by simpa using he'
            simp [get_by_primary_attributes, scanSymlinkDir, hfile, hsym]
          · rcases hk with hf | hs
            · simp [get_by_primary_attributes, scanSymlinkDir, hf]
            · by_cases hf : e.is_file = true <;>
                simp [get_by_primary_attributes, scanSymlinkDir, hf, hs]

/-- Witness for C8: a shard directory whose single entry is a broken
symlink makes the lookup raise `DekerBrokenSymlinkError`. -/
theorem claim_C8_witness :
    get_by_primary_attributes (some [⟨"lnk", false, true⟩]) =
      LookupResult.errored DekerError.dekerBrokenSymlinkError := by
  exact (claim_C8 (some [⟨"lnk", false, true⟩])
      (by intro es h; cases h; decide)
      (by intro es h; cases h; intro e he; simp at he; simp [he])).1
    [⟨"lnk", false, true⟩] rfl ⟨⟨"lnk", false, true⟩, by simp, rfl, rfl⟩

/-- Claim C9: when the schema footprint (cell count × element size) exceeds
the configured memory limit, `LocalCollectionAdapter.create` fails with the
memory-limit condition before touching the filesystem: the state is
unchanged, so neither the collection directory nor its metadata document
exists afterwards. -/
theorem claim_C9 (fs : CollectionsFS) (name : String) (shape : Shape)
    (itemsize : Nat) (memory_limit : Nat) (metadata : String)
    (hmem : shape.prod * itemsize > memory_limit) :
    (localCollectionAdapterCreate fs name shape itemsize memory_limit metadata).2 =
      some DekerError.dekerMemoryError ∧
    errorTaxonomy DekerError.dekerMemoryError = ErrorCategory.memoryLimitExceeded ∧
    (localCollectionAdapterCreate fs name shape itemsize memory_limit metadata).1 = fs := by
  refine ⟨?_, rfl, ?_⟩ <;> simp [localCollectionAdapterCreate, check_memory, hmem]

/-- Witness for C9: a `10000 × 10000` float64 schema against a 100-byte
limit fails with the memory-limit error and leaves the registry state
unchanged (no directory, no metadata document). -/
theorem claim_C9_witness :
    (localCollectionAdapterCreate ⟨[], []⟩ ("weather") [10000, 10000] 8 100 ("m")).2 =
      some DekerError.dekerMemoryError ∧
    (localCollectionAdapterCreate ⟨[], []⟩ ("weather") [10000, 10000] 8 100 ("m")).1 =
      (⟨[], []⟩ : CollectionsFS) := by
  have h := claim_C9 ⟨[], []⟩ ("weather") [10000, 10000] 8 100 ("m") (by norm_num)
  exact ⟨h.1, h.2.2⟩

theorem sweepFolders_symlinks (rootDirs : List DirName) :
    ∀ (folders : List SweepPath) (fs : SweepFS),
      (sweepFolders rootDirs fs folders).1.symlinks = fs.symlinks
  | [], _ => rfl
  | folder :: rest, fs => by
      simp only [sweepFolders]
      split
      next => rfl
      next =>
        split
        next => rfl
        next => exact sweepFolders_symlinks rootDirs rest (rmdirFS fs folder)

/-- The sweep never removes a directory whose path string ends with one of
the configured root directory names. -/
theorem sweepFolders_preserves_endswith (rootDirs : List DirName) :
    ∀ (folders : List SweepPath) (fs : SweepFS) (p : SweepPath),
      p ∈ fs.dirs → rootDirs.any (pathEndsWith p) = true →
      p ∈ (sweepFolders rootDirs fs folders).1.dirs
  | [], _, _, hp, _ => hp
  | folder :: rest, fs, p, hp, hroot => by
      simp only [sweepFolders]
      split
      next => exact hp
      next =>
        split
        next => exact hp
        next hstop =>
          refine sweepFolders_preserves_endswith rootDirs rest (rmdirFS fs folder) p ?_ hroot
          simp only [Bool.or_eq_true, not_or, Bool.not_eq_true] at hstop
          simp only [rmdirFS, List.mem_filter, Bool.not_eq_true', beq_eq_false_iff_ne,
            ne_eq]
          refine ⟨hp, ?_⟩
          intro hpf
          rw [hpf] at hroot
          rw [hroot] at hstop
          exact absurd hstop.2 (by simp)

theorem lookup_filter_out {β : Type} (l : List (SweepPath × β)) (s : SweepPath) :
    (l.filter fun e => !(e.1 == s)).lookup s = none := by
  induction l with
  | nil => rfl
  | cons e es ih =>
      obtain ⟨k, v⟩ := e
      by_cases h : k = s
      · subst h
        simp [List.filter_cons, ih]
      · have hks : (k == s) = false := by simp [h]
        have hsk : (s == k) = false := by simp [Ne.symm h]
        simp [List.filter_cons, List.lookup, hks, hsk, ih]

/-- The post-unlink tail of `_delete` — the two guarded ancestor sweeps —
never touches symlink records. -/
theorem deleteTail_symlinks (rootDirs : List DirName) (fs2 : SweepFS)
    (data s : SweepPath) :
    (if (if dirExistsFS fs2 data.dropLast then sweepFolders rootDirs fs2 (parentsOf data)
        else (fs2, true)).2 = true then
      (if dirExistsFS (if dirExistsFS fs2 data.dropLast then
            sweepFolders rootDirs fs2 (parentsOf data) else (fs2, true)).1 s.dropLast then
          sweepFolders rootDirs (if dirExistsFS fs2 data.dropLast then
            sweepFolders rootDirs fs2 (parentsOf data) else (fs2, true)).1 (parentsOf s)
        else ((if dirExistsFS fs2 data.dropLast then
            sweepFolders rootDirs fs2 (parentsOf data) else (fs2, true)).1, true)).1
    else (if dirExistsFS fs2 data.dropLast then
        sweepFolders rootDirs fs2 (parentsOf data) else (fs2, true)).1).symlinks =
    fs2.symlinks := by
  generalize hR : (if dirExistsFS fs2 data.dropLast then
      sweepFolders rootDirs fs2 (parentsOf data) else (fs2, true)) = R
  have hR1 : R.1.symlinks = fs2.symlinks := by
    rw [← hR]
    split
    next => exact sweepFolders_symlinks rootDirs (parentsOf data) fs2
    next => rfl
  split
  next =>
    have h2 : ((if dirExistsFS R.1 s.dropLast then
        sweepFolders rootDirs R.1 (parentsOf s) else (R.1, true)).1).symlinks =
        R.1.symlinks := by
      split
      next => exact sweepFolders_symlinks rootDirs (parentsOf s) R.1
      next => rfl
    rw [h2, hR1]
  next => exact hR1

/-- The post-unlink tail of `_delete` preserves every directory whose path
string ends with a configured root name. -/
theorem deleteTail_dirs (rootDirs : List DirName) (fs2 : SweepFS)
    (data s p : SweepPath) (hp : p ∈ fs2.dirs)
    (hroot : rootDirs.any (pathEndsWith p) = true) :
    p ∈ (if (if dirExistsFS fs2 data.dropLast then sweepFolders rootDirs fs2 (parentsOf data)
        else (fs2, true)).2 = true then
      (if dirExistsFS (if dirExistsFS fs2 data.dropLast then
            sweepFolders rootDirs fs2 (parentsOf data) else (fs2, true)).1 s.dropLast then
          sweepFolders rootDirs (if dirExistsFS fs2 data.dropLast then
            sweepFolders rootDirs fs2 (parentsOf data) else (fs2, true)).1 (parentsOf s)
        else ((if dirExistsFS fs2 data.dropLast then
            sweepFolders rootDirs fs2 (parentsOf data) else (fs2, true)).1, true)).1
    else (if dirExistsFS fs2 data.dropLast then
        sweepFolders rootDirs fs2 (parentsOf data) else (fs2, true)).1).dirs := by
  generalize hR : (if dirExistsFS fs2 data.dropLast then
      sweepFolders rootDirs fs2 (parentsOf data) else (fs2, true)) = R
  have hR1 : p ∈ R.1.dirs := by
    rw [← hR]
    split
    next => exact sweepFolders_preserves_endswith rootDirs (parentsOf data) fs2 p hp hroot
    next => exact hp
  split
  next =>
    split
    next => exact sweepFolders_preserves_endswith rootDirs (parentsOf s) R.1 p hR1 hroot
    next => exact hR1
  next => exact hR1

/-- `_delete` on a symlink that does not resolve is a no-op (the
`FileNotFoundError` from `readlink` is caught). -/
theorem mixinDelete_of_lookup_none (rootDirs : List DirName) (fs : SweepFS)
    (s : SweepPath) (h : fs.symlinks.lookup s = none) :
    mixinDelete rootDirs fs s = fs := by
  unfold mixinDelete
  rw [h]

/-- After `_delete`, the symlink is gone: the sweep loops never touch
symlink records, and the unlink removed this one. -/
theorem mixinDelete_lookup_none (rootDirs : List DirName) (fs : SweepFS)
    (s : SweepPath) : (mixinDelete rootDirs fs s).symlinks.lookup s = none ∨
      mixinDelete rootDirs fs s = fs := by
  cases hl : fs.symlinks.lookup s with
  | none => exact Or.inr (mixinDelete_of_lookup_none rootDirs fs s hl)
  | some data =>
      refine Or.inl ?_
      simp only [mixinDelete, hl]
      rw [deleteTail_symlinks rootDirs _ data s]
      have hfs1 : (if fs.files.contains data then removeFileFS fs data else fs).symlinks =
          fs.symlinks := by split <;> rfl
      simp only [removeSymlinkFS, hfs1]
      exact lookup_filter_out fs.symlinks s

/-- `_delete` is idempotent: repeating it changes nothing. -/
theorem mixinDelete_idem (rootDirs : List DirName) (fs : SweepFS) (s : SweepPath) :
    mixinDelete rootDirs (mixinDelete rootDirs fs s) s = mixinDelete rootDirs fs s := by
  rcases mixinDelete_lookup_none rootDirs fs s with h | h
  · exact mixinDelete_of_lookup_none rootDirs _ s h
  · rw [h]
    rcases mixinDelete_lookup_none rootDirs fs s with h2 | h2
    · rw [h] at h2
      exact h ▸ mixinDelete_of_lookup_none rootDirs fs s h2
    · exact h2

/-- `_delete` never removes a directory whose path string ends with one of
the configured root directory names. -/
theorem mixinDelete_preserves_endswith (rootDirs : List DirName) (fs : SweepFS)
    (s : SweepPath) (p : SweepPath) (hp : p ∈ fs.dirs)
    (hroot : rootDirs.any (pathEndsWith p) = true) :
    p ∈ (mixinDelete rootDirs fs s).dirs := by
  simp only [mixinDelete]
  split
  next => exact hp
  next data _ =>
      have hp2 : p ∈ (removeSymlinkFS
          (if fs.files.contains data then removeFileFS fs data else fs) s).dirs := by
        have hd : (removeSymlinkFS
            (if fs.files.contains data then removeFileFS fs data else fs) s).dirs =
            fs.dirs := by
          simp only [removeSymlinkFS]
          split <;> rfl
        rw [hd]
        exact hp
      exact deleteTail_dirs rootDirs _ data s p hp2 hroot

/-- Claim C10 as amended: the deletion sweep preserves every directory whose
path string ends with one of the two configured root directory names — in
particular the data and symlinks roots themselves are never removed — and
repeating `_delete` on an already-swept tree changes nothing. -/
theorem claim_C10 (rootDirs : List DirName) (fs : SweepFS) (s : SweepPath) :
    (∀ p ∈ fs.dirs, rootDirs.any (pathEndsWith p) = true →
      p ∈ (mixinDelete rootDirs fs s).dirs) ∧
    mixinDelete rootDirs (mixinDelete rootDirs fs s) s = mixinDelete rootDirs fs s :=
  ⟨fun p hp hroot => mixinDelete_preserves_endswith rootDirs fs s p hp hroot,
    mixinDelete_idem rootDirs fs s⟩

/-- Counterexample to claim C10 as stated: deleting the last entry under a
shard directory named `x_array_data` — a name that matches neither
configured root name, but whose path string ends with the root name
`array_data` — leaves that directory in place although it is empty, because
the code compares with `str(folder).endswith(directory)`, not by name. -/
theorem claim_C10_counterexample :
    ["c".toList, "x_array_data".toList] ∈
      (mixinDelete ["array_data".toList, "array_symlinks".toList]
        (⟨[["c".toList], ["c".toList, "x_array_data".toList], ["sym".toList]],
          [["c".toList, "x_array_data".toList, "dat".toList]],
          [(["sym".toList, "lnk".toList],
            ["c".toList, "x_array_data".toList, "dat".toList])]⟩ : SweepFS)
        ["sym".toList, "lnk".toList]).dirs ∧
    dirEntriesFS
      (mixinDelete ["array_data".toList, "array_symlinks".toList]
        (⟨[["c".toList], ["c".toList, "x_array_data".toList], ["sym".toList]],
          [["c".toList, "x_array_data".toList, "dat".toList]],
          [(["sym".toList, "lnk".toList],
            ["c".toList, "x_array_data".toList, "dat".toList])]⟩ : SweepFS)
        ["sym".toList, "lnk".toList])
      ["c".toList, "x_array_data".toList] = [] ∧
    ("x_array_data".toList ≠ "array_data".toList ∧
      "x_array_data".toList ≠ "array_symlinks".toList) := by
  refine ⟨?_, ?_, by decide⟩ <;> decide

/-- Witness for the amended C10: the configured root `array_data`, empty
after the deletion, survives the sweep, and repeating the deletion is a
no-op. -/
theorem claim_C10_witness :
    ["array_data".toList] ∈
      (mixinDelete ["array_data".toList, "array_symlinks".toList]
        (⟨[["array_data".toList]], [["array_data".toList, "f".toList]],
          [(["array_data".toList, "s".toList], ["array_data".toList, "f".toList])]⟩ :
            SweepFS)
        ["array_data".toList, "s".toList]).dirs ∧
    mixinDelete ["array_data".toList, "array_symlinks".toList]
        (mixinDelete ["array_data".toList, "array_symlinks".toList]
          (⟨[["array_data".toList]], [["array_data".toList, "f".toList]],
            [(["array_data".toList, "s".toList], ["array_data".toList, "f".toList])]⟩ :
              SweepFS)
          ["array_data".toList, "s".toList])
        ["array_data".toList, "s".toList] =
      mixinDelete ["array_data".toList, "array_symlinks".toList]
        (⟨[["array_data".toList]], [["array_data".toList, "f".toList]],
          [(["array_data".toList, "s".toList], ["array_data".toList, "f".toList])]⟩ :
            SweepFS)
        ["array_data".toList, "s".toList] := by
  have h := claim_C10 ["array_data".toList, "array_symlinks".toList]
    (⟨[["array_data".toList]], [["array_data".toList, "f".toList]],
      [(["array_data".toList, "s".toList], ["array_data".toList, "f".toList])]⟩ : SweepFS)
    ["array_data".toList, "s".toList]
  exact ⟨h.1 ["array_data".toList] (by decide) (by decide), h.2⟩

end DekerLocal
